import Mathlib

/-!
Shallow embedding of the EM-1 v1.0.2 MicroPython brew-controller core.

Python floats are modelled as rationals (ℚ); Python ints as ℤ/ℕ.
A raised exception is modelled as the `none`/`Except.error` branch of the
returned value.  Sources embedded here:
  * `utils/pid.py`              — class `PID`
  * `utils/profile_handler.py`  — class `profile_handler`
  * `utils/control.py`          — class `BrewController`
  * `hardware/motor.py`         — class `Motor`
-/

/-! PID regulator, from `utils/pid.py`. -/

structure PID where
  p_const : ℚ
  i_const : ℚ
  d_const : ℚ
  set_point : Option ℚ
  previous_error : ℚ
  positive_wind_up : ℚ
  negative_wind_up : ℚ
  integral_sum : ℚ
  dt : ℚ
deriving DecidableEq

/-- The error chosen by `PID.update`'s first lines: Python's `if target:` is
true exactly when `target` is neither `None` nor numerically zero; otherwise
the stored `set_point` is used (`None` set_point then raises `TypeError`,
modelled as `none`). -/
def PID.errorOf (pid : PID) (current_value : ℚ) (target : Option ℚ) : Option ℚ :=
  match target with
  | some t => if t = 0 then pid.set_point.map (fun sp => sp - current_value)
              else some (t - current_value)
  | none => pid.set_point.map (fun sp => sp - current_value)

/-- The arithmetic of `PID.update` after the error has been computed:
`integral_sum = max(negative_wind_up, min(error + integral_sum, positive_wind_up))`,
then the P/I/D terms, mutating `integral_sum` and `previous_error`. -/
def PID.step (pid : PID) (error : ℚ) : PID × ℚ :=
  let integral_sum :=
    max pid.negative_wind_up (min (error + pid.integral_sum) pid.positive_wind_up)
  let p_term := error * pid.p_const
  let i_term := integral_sum * pid.i_const * pid.dt
  let d_term := (error - pid.previous_error) * pid.d_const / pid.dt
  ({ pid with integral_sum := integral_sum, previous_error := error },
   p_term + i_term + d_term)

/-- `PID.update(current_value, target)` from `utils/pid.py`. -/
def PID.update (pid : PID) (current_value : ℚ) (target : Option ℚ) :
    Option (PID × ℚ) :=
  (pid.errorOf current_value target).map pid.step

/-- Sequence of `integral_sum` values produced by consecutive `update` calls
(the inputs are `(current_value, target)` pairs); `none` if a call raises. -/
def PID.accTrace (pid : PID) : List (ℚ × Option ℚ) → Option (List ℚ)
  | [] => some []
  | (cv, tg) :: rest =>
    match pid.update cv tg with
    | none => none
    | some (pid', _) => (PID.accTrace pid' rest).map (fun l => pid'.integral_sum :: l)

/-- Clamp as written in the spec: `clamp(x, lo, hi)`. -/
def clampQ (x lo hi : ℚ) : ℚ := max lo (min x hi)

/-! Profile interpreter, from `utils/profile_handler.py`.  A profile stage is
the tuple `[duration_ms, kind, p2, (p3)]` of the JSON file; index 2 is the
hold pressure resp. the ramp's initial pressure, index 3 the ramp's final
pressure. -/

inductive Stage where
  | hold (duration_ms : ℤ) (pressure : ℚ)
  | linear (duration_ms : ℤ) (initial_pressure : ℚ) (final_pressure : ℚ)
deriving DecidableEq

def Stage.duration : Stage → ℤ
  | .hold d _ => d
  | .linear d _ _ => d

/-- Tuple index 2 of a stage (`profile_stage[2]` in the source). -/
def Stage.val2 : Stage → ℚ
  | .hold _ p => p
  | .linear _ i _ => i

/-- The value the source's past-the-end fallback returns for the last stage:
`last_stage[2]` for a hold, `last_stage[3]` for a linear ramp. -/
def Stage.terminal : Stage → ℚ
  | .hold _ p => p
  | .linear _ _ f => f

/-- `profile_handler._calculate_linear` (zero-duration guard included). -/
def calculate_linear (initial_pressure final_pressure : ℚ) (duration : ℤ)
    (current_time_ms time_elapsed : ℤ) : ℚ :=
  if duration = 0 then initial_pressure
  else
    let slope := (final_pressure - initial_pressure) / (duration : ℚ)
    let x : ℚ := ((current_time_ms - time_elapsed : ℤ) : ℚ)
    slope * x + initial_pressure

/-- The value returned for the active stage: its constant pressure for
`'hold'`, `_calculate_linear(...)` for `'linear'`. -/
def stageReturn (s : Stage) (t time_at_start : ℤ) : ℚ :=
  match s with
  | .hold _ p => p
  | .linear d i f => calculate_linear i f d t time_at_start

/-- The stage walk of `get_target_at_time`: accumulate `time_at_start`, return
at the first stage whose interval `(time_at_start, time_at_end]` contains
`t`; `none` when the walk falls off the end of the list. -/
def findStage : List Stage → ℤ → ℤ → Option ℚ
  | [], _, _ => none
  | s :: rest, time_at_start, t =>
    let time_at_end := time_at_start + s.duration
    if time_at_start < t ∧ t ≤ time_at_end then some (stageReturn s t time_at_start)
    else findStage rest time_at_end t

/-- The `current_time_ms == 0` special case at the top of
`get_target_at_time`: `Except.error ()` models the `IndexError` raised by
`profile_stages[0]` on an empty stage list; `Except.ok none` models the
Python `return None` taken when the *duration* (tuple index 0) of the first
stage is nonzero. -/
def targetAtZero (profile_stages : List Stage) : Except Unit (Option ℚ) :=
  match profile_stages with
  | [] => Except.error ()
  | s :: _ => if s.duration = 0 then Except.ok (some s.val2) else Except.ok none

/-- The fall-through after the stage walk: `profile_stages[-1]`, returning
its index-2 value for `'hold'` and its index-3 value otherwise
(`Except.error ()` is the `IndexError` on an empty stage list). -/
def targetPastEnd (profile_stages : List Stage) : Except Unit (Option ℚ) :=
  match profile_stages.getLast? with
  | none => Except.error ()
  | some last => Except.ok (some last.terminal)

def get_target_at_time (profile_stages : List Stage) (current_time_ms : ℤ) :
    Except Unit (Option ℚ) :=
  if current_time_ms = 0 then targetAtZero profile_stages
  else
    match findStage profile_stages 0 current_time_ms with
    | some p => Except.ok (some p)
    | none => targetPastEnd profile_stages

/-- Sum of the durations of a stage list. -/
def durSum (stages : List Stage) : ℤ := (stages.map Stage.duration).sum

/-- Start time of stage `i`: the sum of the durations before it. -/
def stageStart (stages : List Stage) (i : ℕ) : ℤ := durSum (stages.take i)

/-- Value of a stage at time `t`, as the spec's words describe it: the
constant hold pressure, or `start + (end - start)*(t - timeAtStart)/durationMs`
with a zero-duration ramp returning `start`. -/
def Stage.specValueAt (s : Stage) (timeAtStart t : ℤ) : ℚ :=
  match s with
  | .hold _ p => p
  | .linear d i f =>
      if d = 0 then i else i + (f - i) * (((t - timeAtStart : ℤ) : ℚ)) / (d : ℚ)

/-- The fields of a parsed brew-profile JSON file. -/
structure ProfileJson where
  profile_name : String
  time_step_ms : ℕ
  profile_points : List Stage
  target_temp_c : ℚ
  total_duration_ms : ℕ

/-- The state of a `profile_handler` instance after `load_profile`. -/
structure profile_handler where
  profile_name : String
  time_step_ms : ℕ
  profile_stages : List Stage
  temperature : ℚ
  duration : ℕ
deriving DecidableEq

/-- `profile_handler.load_profile`: copies the parsed JSON fields into the
handler.  The source performs no validation whatsoever. -/
def load_profile (profile : ProfileJson) : profile_handler :=
  { profile_name := profile.profile_name
    time_step_ms := profile.time_step_ms
    profile_stages := profile.profile_points
    temperature := profile.target_temp_c
    duration := profile.total_duration_ms }

/-! Pulse actuator, from `hardware/motor.py`. -/

/-- Observable state of a `Motor`: direction pin, enable pin (HIGH = 1 means
the driver is disabled), the PIO state machine's programmed frequency and
whether it is active (emitting pulses). -/
structure Motor where
  dir_pin : ℕ
  en_pin : ℕ
  sm_freq : ℕ
  sm_active : Bool
deriving DecidableEq

def CYCLES_PER_PULSE : ℕ := 2

def MIN_PIO_FREQ : ℕ := 2000

/-- `Motor.stop`: deactivate the PIO state machine and disable the driver. -/
def Motor.stop (m : Motor) : Motor :=
  { m with sm_active := false, en_pin := 1 }

/-- `Motor.set_speed(speed, direction)`.  `init_ok` injects the outcome of the
`self.sm.init(...)` call (the only fallible operation); on failure the source
calls `self.stop()` and re-raises, so the exception propagates carrying the
stopped state (`Except.error`).  `int(abs(speed) * 2)` truncates toward zero,
which for the non-negative `abs(speed) * 2` is the floor. -/
def Motor.set_speed (m : Motor) (speed : ℚ) (direction : Option ℕ)
    (init_ok : Bool) : Except Motor Motor :=
  let m := { m with dir_pin := match direction with
                               | some d => d
                               | none => if speed < 0 then 1 else 0 }
  if speed = 0 then Except.ok m.stop
  else
    let pio_frequency := (⌊|speed| * (CYCLES_PER_PULSE : ℚ)⌋).toNat
    let pio_frequency :=
      if pio_frequency < MIN_PIO_FREQ then MIN_PIO_FREQ else pio_frequency
    if init_ok then
      Except.ok { m with sm_freq := pio_frequency, en_pin := 0, sm_active := true }
    else
      Except.error m.stop

/-- `Motor.convert_pid_to_speed`. -/
def convert_pid_to_speed (pid_input : ℚ) : ℚ := pid_input * 10

/-! Brew control loop, from `utils/control.py`. -/

/-- A motor command issued by the `BrewController` (the actuator's public
operations it invokes). -/
inductive MotorCmd where
  | set_speed (v : ℚ)
  | stop
deriving DecidableEq

/-- External collaborators and injected faults for one brew run:
sensor readings per loop time, the number of busy-wait polls for which
`utime.ticks_ms() < next_tick` holds after the tick at each loop time, whether
`sm.init` succeeds at each loop time, and whether `shot_log.append` raises
(e.g. `MemoryError`) at each loop time. -/
structure BrewEnv where
  pressure : ℕ → ℚ
  temp : ℕ → ℚ
  polls : ℕ → ℕ
  init_ok : ℕ → Bool
  append_fails : ℕ → Bool

/-- State owned by a `BrewController`, plus the trace of motor commands it has
issued (newest last). -/
structure BrewSys where
  pid : PID
  motor : Motor
  ph : profile_handler
  shot_log : List (ℕ × Option ℚ × ℚ × ℚ)
  events : List MotorCmd
deriving DecidableEq

/-- Issue `self.motor.set_speed(v)` from the controller, recording the
command in the event trace. -/
def BrewSys.motorSetSpeed (sys : BrewSys) (v : ℚ) (ok : Bool) :
    Except BrewSys BrewSys :=
  match sys.motor.set_speed v none ok with
  | Except.ok m =>
      Except.ok { sys with motor := m, events := sys.events ++ [MotorCmd.set_speed v] }
  | Except.error m =>
      Except.error { sys with motor := m, events := sys.events ++ [MotorCmd.set_speed v] }

/-- Issue `self.motor.stop()` from the controller. -/
def BrewSys.motorStop (sys : BrewSys) : BrewSys :=
  { sys with motor := sys.motor.stop, events := sys.events ++ [MotorCmd.stop] }

/-- `BrewController.do_brew_cycle(time)`: target lookup, sensor reads, PID
update, speed conversion, `set_speed`, log append — in source order.  An
exception at any step propagates as `Except.error` carrying the state at the
moment it was raised. -/
def do_brew_cycle (env : BrewEnv) (sys : BrewSys) (time : ℕ) :
    Except BrewSys BrewSys :=
  match get_target_at_time sys.ph.profile_stages (time : ℤ) with
  | Except.error _ => Except.error sys
  | Except.ok target_pressure =>
    let current_pressure := env.pressure time
    let current_temp := env.temp time
    match sys.pid.update current_pressure target_pressure with
    | none => Except.error sys
    | some (pid', pid_output) =>
      let sys := { sys with pid := pid' }
      let motor_speed := convert_pid_to_speed pid_output
      match sys.motorSetSpeed motor_speed (env.init_ok time) with
      | Except.error s => Except.error s
      | Except.ok s =>
        if env.append_fails time then Except.error s
        else Except.ok { s with
          shot_log := s.shot_log ++ [(time, target_pressure, current_pressure, current_temp)] }

/-- The busy-wait `while utime.ticks_ms() < next_tick: self.motor.stop()`:
its body runs once per poll for which the clock is still before the
deadline — and that body is a `motor.stop()` call. -/
def busyWait : ℕ → BrewSys → BrewSys
  | 0, sys => sys
  | n + 1, sys => busyWait n sys.motorStop

/-- The `for current_loop_time_ms in range(...)` body of `execute_brew`. -/
def brewLoop (env : BrewEnv) : List ℕ → BrewSys → Except BrewSys BrewSys
  | [], sys => Except.ok sys
  | t :: rest, sys =>
    match do_brew_cycle env sys t with
    | Except.error s => Except.error s
    | Except.ok s => brewLoop env rest (busyWait (env.polls t) s)

/-- The loop times `range(0, duration_ms, time_step_ms)` (for a positive
step). -/
def tickTimes (duration_ms time_step_ms : ℕ) : List ℕ :=
  (List.range ((duration_ms + time_step_ms - 1) / time_step_ms)).map
    (fun k => k * time_step_ms)

/-- `BrewController.execute_brew()`. -/
def execute_brew (env : BrewEnv) (sys : BrewSys) : Except BrewSys BrewSys :=
  brewLoop env (tickTimes sys.ph.duration sys.ph.time_step_ms) sys

/-- Whether an `Except` result is the non-raising branch. -/
def isOkE {α β : Type} (e : Except α β) : Bool :=
  match e with
  | Except.ok _ => true
  | Except.error _ => false

/-- The controller state at the moment `execute_brew` hands control back,
whether by returning or by letting an exception propagate. -/
def exceptState (e : Except BrewSys BrewSys) : BrewSys :=
  match e with
  | Except.ok s => s
  | Except.error s => s

/-! Claims about the PID regulator. -/

/-- C3: for `PID.update(measured, target)` with a nonzero target, letting
`error = target - measured`, the integral accumulator becomes
`clamp(old + error, negativeWindupLimit, positiveWindupLimit)` (the raw sum is
clamped before any scaling), the call returns
`Kp*error + Ki*accumulator*dt + Kd*(error - previousError)/dt`, and
`previousError` is set to `error`. -/
theorem pid_update_nonzero_target (pid : PID) (measured t : ℚ) (ht : t ≠ 0) :
    ∃ pid' out, pid.update measured (some t) = some (pid', out) ∧
      pid'.integral_sum = clampQ (pid.integral_sum + (t - measured))
        pid.negative_wind_up pid.positive_wind_up ∧
      out = pid.p_const * (t - measured)
            + pid.i_const * pid'.integral_sum * pid.dt
            + pid.d_const * ((t - measured) - pid.previous_error) / pid.dt ∧
      pid'.previous_error = t - measured := by
  refine ⟨(pid.step (t - measured)).1, (pid.step (t - measured)).2, ?_, ?_, ?_, ?_⟩
  · simp [PID.update, PID.errorOf, ht]
  · simp [PID.step, clampQ, add_comm]
  · simp [PID.step]; ring
  · simp [PID.step]

/-- Concrete PID instance used by the witnesses. -/
def pidW : PID :=
  { p_const := 1, i_const := 2, d_const := 3, set_point := some 9,
    previous_error := 0, positive_wind_up := 10, negative_wind_up := -10,
    integral_sum := 0, dt := 1/100 }

/-- Witness for C3 at `measured = 1`, `target = 2`. -/
theorem pid_update_nonzero_target_witness :
    (2 : ℚ) ≠ 0 ∧
    (∃ pid' out, pidW.update 1 (some 2) = some (pid', out) ∧
      pid'.integral_sum = clampQ (pidW.integral_sum + (2 - 1))
        pidW.negative_wind_up pidW.positive_wind_up ∧
      out = pidW.p_const * (2 - 1)
            + pidW.i_const * pid'.integral_sum * pidW.dt
            + pidW.d_const * ((2 - 1) - pidW.previous_error) / pidW.dt ∧
      pid'.previous_error = 2 - 1) :=
  ⟨by norm_num, pid_update_nonzero_target pidW 1 2 (by norm_num)⟩

/-- C8: with a stored set-point, `update(measured, 0)` computes the error as
`setPoint - measured` (a numerically-zero target is ignored, behaving exactly
like passing no target), while any nonzero target gives `target - measured`. -/
theorem pid_zero_target_uses_set_point (pid : PID) (sp measured : ℚ)
    (hsp : pid.set_point = some sp) :
    pid.errorOf measured (some 0) = some (sp - measured) ∧
    pid.update measured (some 0) = pid.update measured none ∧
    (∃ pid0 out0, pid.update measured (some 0) = some (pid0, out0) ∧
       pid0.previous_error = sp - measured) ∧
    (∀ t : ℚ, t ≠ 0 → pid.errorOf measured (some t) = some (t - measured)) := by
  refine ⟨?_, ?_, ?_, ?_⟩
  · simp [PID.errorOf, hsp]
  · simp [PID.update, PID.errorOf]
  · exact ⟨(pid.step (sp - measured)).1, (pid.step (sp - measured)).2,
      by simp [PID.update, PID.errorOf, hsp], by simp [PID.step]⟩
  · intro t ht; simp [PID.errorOf, ht]

/-- Witness for C8 at `set_point = 9`, `measured = 4`. -/
theorem pid_zero_target_uses_set_point_witness :
    pidW.set_point = some 9 ∧
    (pidW.errorOf 4 (some 0) = some (9 - 4) ∧
     pidW.update 4 (some 0) = pidW.update 4 none ∧
     (∃ pid0 out0, pidW.update 4 (some 0) = some (pid0, out0) ∧
        pid0.previous_error = 9 - 4) ∧
     (∀ t : ℚ, t ≠ 0 → pidW.errorOf 4 (some t) = some (t - 4))) :=
  ⟨rfl, pid_zero_target_uses_set_point pidW 9 4 rfl⟩

/-- Every successful `update` leaves the accumulator inside the wind-up
bounds (the new accumulator is a clamp, so this needs only
`negative_wind_up ≤ positive_wind_up`). -/
theorem accTrace_bounds (inputs : List (ℚ × Option ℚ)) :
    ∀ pid : PID, pid.negative_wind_up ≤ pid.positive_wind_up →
    ∀ trace, pid.accTrace inputs = some trace →
    ∀ x ∈ trace, pid.negative_wind_up ≤ x ∧ x ≤ pid.positive_wind_up := by
  induction inputs with
  | nil =>
    intro pid _ trace htr x hx
    simp [PID.accTrace] at htr
    subst htr
    simp at hx
  | cons head rest ih =>
    intro pid hle trace htr x hx
    obtain ⟨cv, tg⟩ := head
    rw [PID.accTrace] at htr
    cases hup : pid.update cv tg with
    | none => rw [hup] at htr; simp at htr
    | some pr =>
      obtain ⟨pid', out⟩ := pr
      rw [hup] at htr
      simp only [Option.map_eq_some'] at htr
      obtain ⟨tl, htl, heq⟩ := htr
      simp only [PID.update, Option.map_eq_some'] at hup
      obtain ⟨e, _, hstep⟩ := hup
      have hp' : pid' = (pid.step e).1 := by rw [hstep]
      subst hp'
      subst heq
      rcases List.mem_cons.mp hx with hx1 | hx2
      · subst hx1
        constructor
        · exact le_max_left _ _
        · exact max_le hle (min_le_right _ _)
      · exact ih (pid.step e).1 hle tl htl x hx2

/-- Along updates whose error is positive, the accumulator grows monotonically
(strictly while below the positive wind-up limit) and never exceeds it. -/
theorem accTrace_mono (inputs : List (ℚ × Option ℚ)) :
    ∀ pid : PID,
    (∀ p ∈ inputs, ∃ t, p.2 = some t ∧ t ≠ 0 ∧ 0 < t - p.1) →
    pid.negative_wind_up ≤ pid.integral_sum →
    pid.integral_sum ≤ pid.positive_wind_up →
    ∃ trace, pid.accTrace inputs = some trace ∧
      List.Chain' (fun a b => a ≤ b ∧ (a < pid.positive_wind_up → a < b))
        (pid.integral_sum :: trace) ∧
      ∀ x ∈ trace, x ≤ pid.positive_wind_up := by
  induction inputs with
  | nil => intro pid _ _ _; exact ⟨[], rfl, by simp, by simp⟩
  | cons head rest ih =>
    intro pid hall hlo hhi
    obtain ⟨cv, tg⟩ := head
    obtain ⟨t, htg, ht0, hte⟩ := hall (cv, tg) (List.mem_cons_self _ _)
    have htg' : tg = some t := htg
    subst htg'
    have hup : pid.update cv (some t) = some (pid.step (t - cv)) := by
      simp [PID.update, PID.errorOf, ht0]
    have hacc : pid.accTrace ((cv, some t) :: rest)
        = (PID.accTrace (pid.step (t - cv)).1 rest).map
            (fun l => (pid.step (t - cv)).1.integral_sum :: l) := by
      rw [PID.accTrace, hup]
    have hisum : (pid.step (t - cv)).1.integral_sum
        = max pid.negative_wind_up
            (min ((t - cv) + pid.integral_sum) pid.positive_wind_up) := rfl
    have hlo' : pid.negative_wind_up ≤ (pid.step (t - cv)).1.integral_sum :=
      le_max_left _ _
    have hhi' : (pid.step (t - cv)).1.integral_sum ≤ pid.positive_wind_up := by
      rw [hisum]; exact max_le (le_trans hlo hhi) (min_le_right _ _)
    have hmono : pid.integral_sum ≤ (pid.step (t - cv)).1.integral_sum := by
      rw [hisum]
      exact le_trans (le_min (by linarith) hhi) (le_max_right _ _)
    have hstrict : pid.integral_sum < pid.positive_wind_up →
        pid.integral_sum < (pid.step (t - cv)).1.integral_sum := by
      intro hlt
      rw [hisum]
      exact lt_of_lt_of_le (lt_min (by linarith) hlt) (le_max_right _ _)
    obtain ⟨tl, htl, hchain, hbound⟩ :=
      ih (pid.step (t - cv)).1 (fun p hp => hall p (List.mem_cons_of_mem _ hp)) hlo' hhi'
    refine ⟨(pid.step (t - cv)).1.integral_sum :: tl, ?_, ?_, ?_⟩
    · rw [hacc, htl]; rfl
    · exact List.chain'_cons.mpr ⟨⟨hmono, hstrict⟩, hchain⟩
    · intro x hx
      rcases List.mem_cons.mp hx with hx1 | hx2
      · subst hx1; exact hhi'
      · exact hbound x hx2

/-- C7: from `integral_sum = 0` with `negative_wind_up ≤ 0 ≤ positive_wind_up`,
every update keeps the accumulator inside
`[negative_wind_up, positive_wind_up]`; over any consecutive run of updates
with positive error the accumulator is non-decreasing, strictly increasing
while it is below `positive_wind_up`, and never exceeds that bound, however
long the run. -/
theorem pid_windup_clamped (pid : PID) (inputs : List (ℚ × Option ℚ))
    (h0 : pid.integral_sum = 0)
    (hneg : pid.negative_wind_up ≤ 0) (hpos : 0 ≤ pid.positive_wind_up) :
    (∀ trace, pid.accTrace inputs = some trace →
        ∀ x ∈ trace, pid.negative_wind_up ≤ x ∧ x ≤ pid.positive_wind_up) ∧
    ((∀ p ∈ inputs, ∃ t, p.2 = some t ∧ t ≠ 0 ∧ 0 < t - p.1) →
      ∃ trace, pid.accTrace inputs = some trace ∧
        List.Chain' (fun a b => a ≤ b ∧ (a < pid.positive_wind_up → a < b))
          (pid.integral_sum :: trace) ∧
        ∀ x ∈ trace, x ≤ pid.positive_wind_up) := by
  constructor
  · intro trace htr
    exact accTrace_bounds inputs pid (le_trans hneg hpos) trace htr
  · intro hall
    refine accTrace_mono inputs pid hall ?_ ?_
    · rw [h0]; exact hneg
    · rw [h0]; exact hpos

/-- Witness for C7 with two positive-error updates. -/
theorem pid_windup_clamped_witness :
    pidW.integral_sum = 0 ∧ pidW.negative_wind_up ≤ 0 ∧
    0 ≤ pidW.positive_wind_up ∧
    ((∀ trace, pidW.accTrace [(0, some 3), (0, some 3)] = some trace →
        ∀ x ∈ trace, pidW.negative_wind_up ≤ x ∧ x ≤ pidW.positive_wind_up) ∧
     ((∀ p ∈ [((0 : ℚ), some (3 : ℚ)), (0, some 3)],
          ∃ t, p.2 = some t ∧ t ≠ 0 ∧ 0 < t - p.1) →
       ∃ trace, pidW.accTrace [(0, some 3), (0, some 3)] = some trace ∧
         List.Chain' (fun a b => a ≤ b ∧ (a < pidW.positive_wind_up → a < b))
           (pidW.integral_sum :: trace) ∧
         ∀ x ∈ trace, x ≤ pidW.positive_wind_up)) :=
  ⟨rfl, by norm_num [pidW], by norm_num [pidW],
   pid_windup_clamped pidW [(0, some 3), (0, some 3)] rfl
     (by norm_num [pidW]) (by norm_num [pidW])⟩

/-! Claims about the profile interpreter. -/

theorem durSum_nonneg (stages : List Stage) (h : ∀ s ∈ stages, 0 ≤ s.duration) :
    0 ≤ durSum stages := by
  refine List.sum_nonneg ?_
  intro x hx
  obtain ⟨s, hs, rfl⟩ := List.mem_map.mp hx
  exact h s hs

/-- The walk returns the value of stage `i` whenever `t` lies in stage `i`'s
half-open interval (for non-negative durations the intervals are disjoint, so
stage `i` is also the first such stage). -/
theorem findStage_of_mem (stages : List Stage) :
    ∀ (start t : ℤ) (i : ℕ) (hi : i < stages.length),
    (∀ s ∈ stages, 0 ≤ s.duration) →
    start + stageStart stages i < t →
    t ≤ start + stageStart stages i + (stages.get ⟨i, hi⟩).duration →
    findStage stages start t
      = some ((stages.get ⟨i, hi⟩).specValueAt (start + stageStart stages i) t) := by
  induction stages with
  | nil => intro start t i hi; simp at hi
  | cons s rest ih =>
    intro start t i hi hdur h1 h2
    cases i with
    | zero =>
      have hss : stageStart (s :: rest) 0 = 0 := by simp [stageStart, durSum]
      rw [hss] at h1 h2 ⊢
      have hcond : start < t ∧ t ≤ start + s.duration := by
        constructor
        · omega
        · have : (s :: rest).get ⟨0, hi⟩ = s := rfl
          rw [this] at h2
          omega
      rw [findStage, if_pos hcond]
      have hget : (s :: rest).get ⟨0, hi⟩ = s := rfl
      rw [hget]
      cases s with
      | hold d p => simp [stageReturn, Stage.specValueAt]
      | linear d i0 f =>
        simp only [stageReturn, Stage.specValueAt, calculate_linear]
        by_cases hd : d = 0
        · simp [hd]
        · rw [if_neg hd, if_neg hd]
          congr 1
          ring_nf
    | succ j =>
      have hss : stageStart (s :: rest) (j + 1) = s.duration + stageStart rest j := by
        simp [stageStart, durSum]
      rw [hss] at h1 h2 ⊢
      have hrest : ∀ s' ∈ rest, 0 ≤ s'.duration :=
        fun s' h' => hdur s' (List.mem_cons_of_mem _ h')
      have hjge : 0 ≤ stageStart rest j :=
        durSum_nonneg _ (fun s' hs' => hrest s' (List.take_subset _ _ hs'))
      have hsd : 0 ≤ s.duration := hdur s (List.mem_cons_self _ _)
      have hcond : ¬ (start < t ∧ t ≤ start + s.duration) := by
        rintro ⟨_, hle⟩
        omega
      rw [findStage, if_neg hcond]
      have hj : j < rest.length := by simpa using hi
      have hget : (s :: rest).get ⟨j + 1, hi⟩ = rest.get ⟨j, hj⟩ := rfl
      rw [hget] at h2 ⊢
      have h1' : start + s.duration + stageStart rest j < t := by omega
      have h2' : t ≤ start + s.duration + stageStart rest j
          + (rest.get ⟨j, hj⟩).duration := by omega
      have := ih (start + s.duration) t j hj hrest h1' h2'
      rw [this]
      congr 2
      omega

/-- Past the sum of all durations the walk finds nothing. -/
theorem findStage_beyond (stages : List Stage) :
    ∀ (start t : ℤ), (∀ s ∈ stages, 0 ≤ s.duration) →
    start + durSum stages < t → findStage stages start t = none := by
  induction stages with
  | nil => intro start t _ _; rfl
  | cons s rest ih =>
    intro start t hdur h
    have hrest : ∀ s' ∈ rest, 0 ≤ s'.duration :=
      fun s' h' => hdur s' (List.mem_cons_of_mem _ h')
    have h0 : 0 ≤ durSum rest := durSum_nonneg rest hrest
    have hcons : durSum (s :: rest) = s.duration + durSum rest := by simp [durSum]
    rw [hcons] at h
    have hcond : ¬ (start < t ∧ t ≤ start + s.duration) := by
      rintro ⟨_, hle⟩
      omega
    rw [findStage, if_neg hcond]
    exact ih (start + s.duration) t hrest (by omega)

/-- For non-negative durations the stage intervals tile `(start, start+total]`,
so the walk succeeds on every `t` in that range. -/
theorem findStage_covered (stages : List Stage) :
    ∀ (start t : ℤ), (∀ s ∈ stages, 0 ≤ s.duration) →
    start < t → t ≤ start + durSum stages →
    ∃ p, findStage stages start t = some p := by
  induction stages with
  | nil =>
    intro start t _ h1 h2
    simp [durSum] at h2
    omega
  | cons s rest ih =>
    intro start t hdur h1 h2
    have hcons : durSum (s :: rest) = s.duration + durSum rest := by simp [durSum]
    by_cases hle : t ≤ start + s.duration
    · exact ⟨stageReturn s t start, by rw [findStage, if_pos ⟨h1, hle⟩]⟩
    · have hcond : ¬ (start < t ∧ t ≤ start + s.duration) := by
        rintro ⟨_, c⟩
        omega
      rw [findStage, if_neg hcond]
      refine ih (start + s.duration) t
        (fun s' h' => hdur s' (List.mem_cons_of_mem _ h')) (by omega) ?_
      rw [hcons] at h2
      omega

/-- C4: for a valid profile (non-empty stages, all durations non-negative) and
any `elapsedMs ≥ 1`, `get_target_at_time` is defined; when `elapsedMs` lies in
stage `i`'s half-open interval `(timeAtStart, timeAtStart + durationMs]` it
returns that stage's value (hold pressure, or
`start + (end-start)*(elapsedMs-timeAtStart)/durationMs`, a zero-duration ramp
returning `start`); past the sum of all durations it returns the last stage's
terminal value. -/
theorem targetAt_valid (stages : List Stage) (t : ℤ)
    (hne : stages ≠ [])
    (hdur : ∀ s ∈ stages, 0 ≤ s.duration)
    (ht : 1 ≤ t) :
    (∃ p, get_target_at_time stages t = Except.ok (some p)) ∧
    (∀ (i : ℕ) (hi : i < stages.length),
        stageStart stages i < t →
        t ≤ stageStart stages i + (stages.get ⟨i, hi⟩).duration →
        get_target_at_time stages t
          = Except.ok (some ((stages.get ⟨i, hi⟩).specValueAt (stageStart stages i) t))) ∧
    (durSum stages < t →
        get_target_at_time stages t = Except.ok (some ((stages.getLast hne).terminal))) := by
  have ht0 : ¬ (t = 0) := by omega
  refine ⟨?_, ?_, ?_⟩
  · by_cases hc : t ≤ durSum stages
    · obtain ⟨p, hp⟩ := findStage_covered stages 0 t hdur (by omega) (by omega)
      exact ⟨p, by rw [get_target_at_time, if_neg ht0, hp]⟩
    · have hb := findStage_beyond stages 0 t hdur (by omega)
      refine ⟨(stages.getLast hne).terminal, ?_⟩
      rw [get_target_at_time, if_neg ht0, hb]
      simp [targetPastEnd, List.getLast?_eq_getLast stages hne]
  · intro i hi hlt hle
    have h := findStage_of_mem stages 0 t i hi hdur (by omega) (by omega)
    rw [zero_add] at h
    rw [get_target_at_time, if_neg ht0, h]
  · intro hgt
    have hb := findStage_beyond stages 0 t hdur (by omega)
    rw [get_target_at_time, if_neg ht0, hb]
    simp [targetPastEnd, List.getLast?_eq_getLast stages hne]

/-- The single-ramp profile of the spec's end-to-end scenario. -/
def stagesW : List Stage := [Stage.linear 1000 0 9]

theorem stagesW_ne : stagesW ≠ [] := by simp [stagesW]

/-- Witness for C4 on `stages = [Ramp(1000ms, 0, 9)]` at `elapsedMs = 500`. -/
theorem targetAt_valid_witness :
    stagesW ≠ [] ∧ (∀ s ∈ stagesW, 0 ≤ s.duration) ∧ (1 : ℤ) ≤ 500 ∧
    ((∃ p, get_target_at_time stagesW 500 = Except.ok (some p)) ∧
     (∀ (i : ℕ) (hi : i < stagesW.length),
         stageStart stagesW i < 500 →
         500 ≤ stageStart stagesW i + (stagesW.get ⟨i, hi⟩).duration →
         get_target_at_time stagesW 500
           = Except.ok (some ((stagesW.get ⟨i, hi⟩).specValueAt (stageStart stagesW i) 500))) ∧
     (durSum stagesW < 500 →
         get_target_at_time stagesW 500
           = Except.ok (some ((stagesW.getLast stagesW_ne).terminal)))) :=
  ⟨stagesW_ne, by decide, by decide,
   targetAt_valid stagesW 500 stagesW_ne (by decide) (by decide)⟩

/-- C9 (amended): at `elapsedMs == 0` the interpreter returns the first
stage's index-2 value exactly when the first stage's *duration* is zero;
otherwise it returns the absent value `None` — even though in the walk every
first stage starts at time 0. -/
theorem targetAt_zero_duration_check (s : Stage) (rest : List Stage) :
    get_target_at_time (s :: rest) 0
      = if s.duration = 0 then Except.ok (some s.val2) else Except.ok none := by
  rw [get_target_at_time, if_pos rfl]
  rfl

/-- C9 counterexample: the profile `[Ramp(1000ms, 0, 9)]` has its first (and
only) stage starting at time 0, and that stage's start value is `0`; yet
`targetAt(0)` yields the absent value `none` rather than that start value. -/
theorem targetAt_zero_counterexample :
    stageStart stagesW 0 = 0 ∧
    get_target_at_time stagesW 0 = Except.ok none ∧
    get_target_at_time stagesW 0
      ≠ Except.ok (some ((Stage.linear 1000 0 9).val2)) := by
  refine ⟨rfl, ?_, ?_⟩
  · norm_num [get_target_at_time, targetAtZero, stagesW, Stage.duration]
  · norm_num [get_target_at_time, targetAtZero, stagesW, Stage.duration, Stage.val2]
    simp

/-! Claims about the pulse actuator. -/

/-- The state a `Motor` is in right after `__init__` (enable pin HIGH =
disabled, placeholder frequency 10000, state machine not yet started,
`stop()` called at the end of the constructor). -/
def motor0 : Motor :=
  { dir_pin := 0, en_pin := 1, sm_freq := 10000, sm_active := false }

/-- The `Except.ok`/`Except.error` payload of a `set_speed` result. -/
def okMotor (e : Except Motor Motor) : Motor :=
  match e with
  | Except.ok m => m
  | Except.error m => m

/-- C5 (amended): for nonzero speed (and a succeeding `sm.init`) the
programmed frequency is the truncation `int(|speed| * cyclesPerPulse)`
whenever that is at least the 2000 Hz floor, and exactly the floor otherwise;
in particular for any `0 < |speed|` below the floor-equivalent speed it is
exactly the floor — never lower, never 0. -/
theorem set_speed_frequency (m : Motor) (speed : ℚ) (direction : Option ℕ)
    (h : speed ≠ 0) :
    isOkE (m.set_speed speed direction true) = true ∧
    (okMotor (m.set_speed speed direction true)).sm_freq
      = (if (⌊|speed| * (CYCLES_PER_PULSE : ℚ)⌋).toNat < MIN_PIO_FREQ
         then MIN_PIO_FREQ
         else (⌊|speed| * (CYCLES_PER_PULSE : ℚ)⌋).toNat) ∧
    MIN_PIO_FREQ ≤ (okMotor (m.set_speed speed direction true)).sm_freq ∧
    (okMotor (m.set_speed speed direction true)).sm_freq ≠ 0 := by
  have hfreq : (okMotor (m.set_speed speed direction true)).sm_freq
      = (if (⌊|speed| * (CYCLES_PER_PULSE : ℚ)⌋).toNat < MIN_PIO_FREQ
         then MIN_PIO_FREQ
         else (⌊|speed| * (CYCLES_PER_PULSE : ℚ)⌋).toNat) := by
    simp [Motor.set_speed, h, okMotor]
  have hbound : MIN_PIO_FREQ ≤ (okMotor (m.set_speed speed direction true)).sm_freq := by
    rw [hfreq]
    by_cases hc : (⌊|speed| * (CYCLES_PER_PULSE : ℚ)⌋).toNat < MIN_PIO_FREQ
    · rw [if_pos hc]
    · rw [if_neg hc]
      omega
  refine ⟨by simp [Motor.set_speed, h, isOkE], hfreq, hbound, ?_⟩
  have : (0 : ℕ) < MIN_PIO_FREQ := by norm_num [MIN_PIO_FREQ]
  omega

/-- Witness for C5 (amended) at `speed = 90`. -/
theorem set_speed_frequency_witness :
    (90 : ℚ) ≠ 0 ∧
    (isOkE (motor0.set_speed 90 none true) = true ∧
     (okMotor (motor0.set_speed 90 none true)).sm_freq
       = (if (⌊|(90 : ℚ)| * (CYCLES_PER_PULSE : ℚ)⌋).toNat < MIN_PIO_FREQ
          then MIN_PIO_FREQ
          else (⌊|(90 : ℚ)| * (CYCLES_PER_PULSE : ℚ)⌋).toNat) ∧
     MIN_PIO_FREQ ≤ (okMotor (motor0.set_speed 90 none true)).sm_freq ∧
     (okMotor (motor0.set_speed 90 none true)).sm_freq ≠ 0) :=
  ⟨by norm_num, set_speed_frequency motor0 90 none (by norm_num)⟩

/-- C5 counterexample: at `speed = 1000.3`, `round(|speed| * 2) = 2001` is
already above the 2000 Hz floor, so the claim demands a programmed frequency
of 2001; the code's `int(...)` truncation programs 2000 instead. -/
theorem set_speed_frequency_counterexample :
    isOkE (motor0.set_speed ((10003 : ℚ)/10) none true) = true ∧
    (okMotor (motor0.set_speed ((10003 : ℚ)/10) none true)).sm_freq = 2000 ∧
    round (|(10003 : ℚ)/10| * (CYCLES_PER_PULSE : ℚ)) = 2001 := by
  have habs : |(10003 : ℚ)/10| = (10003 : ℚ)/10 := abs_of_nonneg (by norm_num)
  have hcast : ((CYCLES_PER_PULSE : ℕ) : ℚ) = 2 := by norm_num [CYCLES_PER_PULSE]
  have hf : ⌊|(10003 : ℚ)/10| * ((CYCLES_PER_PULSE : ℕ) : ℚ)⌋ = 2000 := by
    rw [habs, hcast]
    norm_num [Int.floor_eq_iff]
  refine ⟨?_, ?_, ?_⟩
  · simp [Motor.set_speed, isOkE, (by norm_num : ((10003 : ℚ)/10) ≠ 0)]
  · simp [Motor.set_speed, okMotor, (by norm_num : ((10003 : ℚ)/10) ≠ 0), hf,
      MIN_PIO_FREQ]
  · rw [habs, hcast]
    norm_num [round_eq, Int.floor_eq_iff]

/-- C6: when programming the pulse generator fails inside `set_speed`, the
actuator transitions to the stopped state — pulse emission halted
(`sm_active = false`) and the driver de-energized (`en_pin = 1`), the
frequency register untouched — before the failure propagates to the caller
(the `Except.error` payload is the state at the moment of propagation). -/
theorem set_speed_failure_stops (m : Motor) (speed : ℚ) (direction : Option ℕ)
    (m' : Motor) (h : m.set_speed speed direction false = Except.error m') :
    m'.sm_active = false ∧ m'.en_pin = 1 ∧ m'.sm_freq = m.sm_freq := by
  by_cases hs : speed = 0
  · simp [Motor.set_speed, hs] at h
  · simp only [Motor.set_speed, if_neg hs, Bool.false_eq_true, if_false,
      Except.error.injEq] at h
    subst h
    simp [Motor.stop]

/-- The state carried by the exception when `set_speed(90)` hits a
programming failure on the freshly initialized motor. -/
def motorFailRes : Motor :=
  { dir_pin := 0, en_pin := 1, sm_freq := 10000, sm_active := false }

/-- Witness for C6: a failure injected into `set_speed(90)` on the fresh
motor propagates the stopped state. -/
theorem set_speed_failure_stops_witness :
    motor0.set_speed 90 none false = Except.error motorFailRes ∧
    (motorFailRes.sm_active = false ∧ motorFailRes.en_pin = 1 ∧
     motorFailRes.sm_freq = motor0.sm_freq) :=
  ⟨by norm_num [Motor.set_speed, motor0, Motor.stop, motorFailRes],
   set_speed_failure_stops motor0 90 none motorFailRes
     (by norm_num [Motor.set_speed, motor0, Motor.stop, motorFailRes])⟩

/-! Claims about the brew control loop.  The concrete run used as evidence:
profile `[Hold(1000ms, 9 bar)]` with a 500 ms tick, PID `(Kp=1, Ki=0, Kd=0,
set_point=9)`, pressure sensor constantly 0, temperature 25. -/

def pid1 : PID :=
  { p_const := 1, i_const := 0, d_const := 0, set_point := some 9,
    previous_error := 0, positive_wind_up := 10, negative_wind_up := -10,
    integral_sum := 0, dt := 1/100 }

def ph1 : profile_handler :=
  { profile_name := "hold9", time_step_ms := 500,
    profile_stages := [Stage.hold 1000 9], temperature := 93, duration := 1000 }

def sys1 : BrewSys :=
  { pid := pid1, motor := motor0, ph := ph1, shot_log := [], events := [] }

/-- Benign environment: every tick overruns its deadline, so the busy-wait
condition `ticks_ms() < next_tick` is never true (zero polls). -/
def env1 : BrewEnv :=
  { pressure := fun _ => 0, temp := fun _ => 25, polls := fun _ => 0,
    init_ok := fun _ => true, append_fails := fun _ => false }

/-- Same run, but each tick finishes early enough for one busy-wait poll. -/
def env2 : BrewEnv :=
  { pressure := fun _ => 0, temp := fun _ => 25, polls := fun _ => 1,
    init_ok := fun _ => true, append_fails := fun _ => false }

/-- Same run as `env1`, but the log append raises on the final tick (after
`set_speed` has already been issued). -/
def env3 : BrewEnv :=
  { pressure := fun _ => 0, temp := fun _ => 25, polls := fun _ => 0,
    init_ok := fun _ => true, append_fails := fun t => t == 500 }

/-- `pid1` after tick 0 (error 9 via the set-point fallback). -/
def pid1a : PID :=
  { p_const := 1, i_const := 0, d_const := 0, set_point := some 9,
    previous_error := 9, positive_wind_up := 10, negative_wind_up := -10,
    integral_sum := 9, dt := 1/100 }

/-- `pid1a` after tick 500 (error 9, accumulator clamped at 10... reaching 18
unclamped, but here 9 + 9 = 18 is cut to the wind-up limit 10). -/
def pid1b : PID :=
  { p_const := 1, i_const := 0, d_const := 0, set_point := some 9,
    previous_error := 9, positive_wind_up := 10, negative_wind_up := -10,
    integral_sum := 10, dt := 1/100 }

/-- The motor while commanded at 90 steps/s: enabled, pulsing at the 2000 Hz
floor. -/
def motorRun : Motor :=
  { dir_pin := 0, en_pin := 0, sm_freq := 2000, sm_active := true }

/-- The motor after a `stop()` that followed a 90 steps/s command. -/
def motorStopped : Motor :=
  { dir_pin := 0, en_pin := 1, sm_freq := 2000, sm_active := false }

/-- `set_speed(90)` programs the 2000 Hz floor (the truncation of `|90|*2` is
180, below the floor), enables the driver and starts the pulse generator. -/
theorem motor_set90 (m : Motor) :
    m.set_speed 90 none true
      = Except.ok { m with dir_pin := 0, en_pin := 0, sm_freq := 2000,
                           sm_active := true } := by
  have habs : |(90 : ℚ)| = 90 := abs_of_nonneg (by norm_num)
  have hfl : ⌊(90 : ℚ) * ((CYCLES_PER_PULSE : ℕ) : ℚ)⌋ = 180 := by
    norm_num [CYCLES_PER_PULSE, Int.floor_eq_iff]
  norm_num [Motor.set_speed, habs, hfl, MIN_PIO_FREQ]

/-- Tick 0's PID call: target is `None` (first stage's duration is nonzero),
so the stored set-point 9 supplies the error. -/
theorem pid1_tick0 : pid1.update 0 none = some (pid1a, 9) := by
  norm_num [PID.update, PID.errorOf, PID.step, pid1, pid1a, min_def, max_def]

/-- Tick 500's PID call: target 9 from the hold stage, accumulator clamps
at the wind-up limit 10. -/
theorem pid1_tick500 : pid1a.update 0 (some 9) = some (pid1b, 9) := by
  norm_num [PID.update, PID.errorOf, PID.step, pid1a, pid1b, min_def, max_def]

theorem target_tick0 :
    get_target_at_time ph1.profile_stages (0 : ℤ) = Except.ok none := by
  norm_num [ph1, get_target_at_time, targetAtZero, Stage.duration]

theorem target_tick500 :
    get_target_at_time ph1.profile_stages (500 : ℤ) = Except.ok (some 9) := by
  norm_num [ph1, get_target_at_time, findStage, stageReturn, Stage.duration]

theorem ticks_ph1 : tickTimes ph1.duration ph1.time_step_ms = [0, 500] := by
  norm_num [ph1, tickTimes, List.range_succ]

/-- State after tick 0 of the `env1` run. -/
def sys1a : BrewSys :=
  { pid := pid1a, motor := motorRun, ph := ph1,
    shot_log := [(0, none, 0, 25)], events := [MotorCmd.set_speed 90] }

/-- State after tick 500 of the `env1` run (normal completion). -/
def sys1b : BrewSys :=
  { pid := pid1b, motor := motorRun, ph := ph1,
    shot_log := [(0, none, 0, 25), (500, some 9, 0, 25)],
    events := [MotorCmd.set_speed 90, MotorCmd.set_speed 90] }

theorem cycle0_env1 : do_brew_cycle env1 sys1 0 = Except.ok sys1a := by
  norm_num [do_brew_cycle, env1, sys1, sys1a, target_tick0, pid1_tick0,
    convert_pid_to_speed, BrewSys.motorSetSpeed, motor_set90, motor0, motorRun]

theorem cycle500_env1 : do_brew_cycle env1 sys1a 500 = Except.ok sys1b := by
  norm_num [do_brew_cycle, env1, sys1a, sys1b, target_tick500, pid1_tick500,
    convert_pid_to_speed, BrewSys.motorSetSpeed, motor_set90, motorRun]

/-- State after tick 0 followed by one busy-wait poll (`env2`): the busy-wait
body has already stopped the motor. -/
def sys2a : BrewSys :=
  { pid := pid1a, motor := motorStopped, ph := ph1,
    shot_log := [(0, none, 0, 25)],
    events := [MotorCmd.set_speed 90, MotorCmd.stop] }

/-- State after tick 500 of the `env2` run, before its busy-wait. -/
def sys2b : BrewSys :=
  { pid := pid1b, motor := motorRun, ph := ph1,
    shot_log := [(0, none, 0, 25), (500, some 9, 0, 25)],
    events := [MotorCmd.set_speed 90, MotorCmd.stop, MotorCmd.set_speed 90] }

/-- Final state of the `env2` run. -/
def sys2c : BrewSys :=
  { pid := pid1b, motor := motorStopped, ph := ph1,
    shot_log := [(0, none, 0, 25), (500, some 9, 0, 25)],
    events := [MotorCmd.set_speed 90, MotorCmd.stop,
               MotorCmd.set_speed 90, MotorCmd.stop] }

/-- State carried by the exception in the `env3` run: the final tick's
`set_speed` had already been issued when the log append raised. -/
def sys3e : BrewSys :=
  { pid := pid1b, motor := motorRun, ph := ph1,
    shot_log := [(0, none, 0, 25)],
    events := [MotorCmd.set_speed 90, MotorCmd.set_speed 90] }

theorem cycle0_env2 : do_brew_cycle env2 sys1 0 = Except.ok sys1a := by
  norm_num [do_brew_cycle, env2, sys1, sys1a, target_tick0, pid1_tick0,
    convert_pid_to_speed, BrewSys.motorSetSpeed, motor_set90, motor0, motorRun]

theorem cycle500_env2 : do_brew_cycle env2 sys2a 500 = Except.ok sys2b := by
  norm_num [do_brew_cycle, env2, sys2a, sys2b, target_tick500, pid1_tick500,
    convert_pid_to_speed, BrewSys.motorSetSpeed, motor_set90, motorStopped, motorRun]

theorem cycle0_env3 : do_brew_cycle env3 sys1 0 = Except.ok sys1a := by
  norm_num [do_brew_cycle, env3, sys1, sys1a, target_tick0, pid1_tick0,
    convert_pid_to_speed, BrewSys.motorSetSpeed, motor_set90, motor0, motorRun]

theorem cycle500_env3 : do_brew_cycle env3 sys1a 500 = Except.error sys3e := by
  norm_num [do_brew_cycle, env3, sys1a, sys3e, target_tick500, pid1_tick500,
    convert_pid_to_speed, BrewSys.motorSetSpeed, motor_set90, motorRun]

/-- Full `env1` run: both ticks overran, so the busy-wait body never runs and
`execute_brew` returns normally. -/
theorem run_env1 : execute_brew env1 sys1 = Except.ok sys1b := by
  have hph : sys1.ph = ph1 := rfl
  have hpolls : env1.polls = fun _ => 0 := rfl
  rw [execute_brew, hph, ticks_ph1]
  simp only [brewLoop, cycle0_env1, cycle500_env1, hpolls, busyWait]

/-- Full `env2` run: one busy-wait poll per tick, each executing
`motor.stop()`. -/
theorem run_env2 : execute_brew env2 sys1 = Except.ok sys2c := by
  have hph : sys1.ph = ph1 := rfl
  have hpolls : env2.polls = fun _ => 1 := rfl
  have hw1 : busyWait 1 sys1a = sys2a := rfl
  have hw2 : busyWait 1 sys2b = sys2c := rfl
  rw [execute_brew, hph, ticks_ph1]
  simp only [brewLoop, cycle0_env2, hpolls, hw1, cycle500_env2, hw2]

/-- Full `env3` run: the final tick's log append raises after `set_speed`,
and the exception propagates with the motor still energized. -/
theorem run_env3 : execute_brew env3 sys1 = Except.error sys3e := by
  have hph : sys1.ph = ph1 := rfl
  have hpolls : env3.polls = fun _ => 0 := rfl
  rw [execute_brew, hph, ticks_ph1]
  simp only [brewLoop, cycle0_env3, hpolls, busyWait, cycle500_env3]

/-- C1: contrary to the claim, `execute_brew` can hand control back without
`Actuator.stop()` ever having been invoked: (a) on normal completion whose
ticks all overran their deadlines (`env1`), it returns with the enable pin
energized, the pulse generator active, and no stop command in the whole
trace; (b) when the final tick's log append raises after `set_speed`
(`env3`), the error propagates in the same energized, stop-free state.  The
source has no `try/finally`; the only `motor.stop()` sits inside the
busy-wait body. -/
theorem execute_brew_returns_energized :
    (isOkE (execute_brew env1 sys1) = true ∧
     (exceptState (execute_brew env1 sys1)).motor.en_pin = 0 ∧
     (exceptState (execute_brew env1 sys1)).motor.sm_active = true ∧
     MotorCmd.stop ∉ (exceptState (execute_brew env1 sys1)).events) ∧
    (isOkE (execute_brew env3 sys1) = false ∧
     (exceptState (execute_brew env3 sys1)).motor.en_pin = 0 ∧
     (exceptState (execute_brew env3 sys1)).motor.sm_active = true ∧
     MotorCmd.stop ∉ (exceptState (execute_brew env3 sys1)).events) := by
  rw [run_env1, run_env3]
  simp [isOkE, exceptState, sys1b, sys3e, motorRun]

/-- C2: contrary to the claim, between tick n's `set_speed` and tick n+1's
`set_speed` the controller issues `motor.stop()` — the busy-wait body is
`self.motor.stop()`, so pulse emission is halted while waiting for the next
deadline instead of continuing uninterrupted (here with one poll per tick the
command trace interleaves stop between the two set-speed commands). -/
theorem execute_brew_stops_between_ticks :
    execute_brew env2 sys1 = Except.ok sys2c ∧
    sys2c.events = [MotorCmd.set_speed 90, MotorCmd.stop,
                    MotorCmd.set_speed 90, MotorCmd.stop] ∧
    sys2c.motor.sm_active = false ∧ sys2c.motor.en_pin = 1 :=
  ⟨run_env2, rfl, rfl, rfl⟩

/-! Claim about profile loading. -/

/-- A malformed profile: empty stage list. -/
def badProfile : ProfileJson :=
  { profile_name := "bad", time_step_ms := 500, profile_points := [],
    target_temp_c := 93, total_duration_ms := 1000 }

/-- A controller built on the malformed profile after `load_profile`
accepted it. -/
def sysB : BrewSys :=
  { pid := pid1, motor := motor0, ph := load_profile badProfile,
    shot_log := [], events := [] }

/-- C10 counterexample: `load_profile` accepts the empty-stage profile
without any fault (it has no error path at all), and `execute_brew` then
enters the control loop with it — the run ends in the `IndexError` raised by
`profile_stages[0]` *inside the first tick's* `do_brew_cycle`, not in a
load-time rejection. -/
theorem load_profile_accepts_invalid :
    (load_profile badProfile).profile_stages = [] ∧
    execute_brew env1 sysB = Except.error sysB ∧
    isOkE (execute_brew env1 sysB) = false := by
  refine ⟨rfl, ?_, ?_⟩
  · rfl
  · rfl

/-- C10 (amended): `load_profile` performs no validation — it copies the
parsed JSON fields verbatim for every profile — and the control loop is
entered regardless: with an empty stage list (and positive duration and
step) the first tick's `do_brew_cycle` runs and raises from inside the
loop. -/
theorem load_profile_no_validation (p : ProfileJson) (env : BrewEnv)
    (sys : BrewSys) (hph : sys.ph = load_profile p)
    (hempty : p.profile_points = [])
    (hstep : 0 < p.time_step_ms) (hdur : 0 < p.total_duration_ms) :
    load_profile p
      = { profile_name := p.profile_name, time_step_ms := p.time_step_ms,
          profile_stages := p.profile_points, temperature := p.target_temp_c,
          duration := p.total_duration_ms } ∧
    execute_brew env sys = Except.error sys := by
  refine ⟨rfl, ?_⟩
  have hstages : sys.ph.profile_stages = [] := by
    rw [hph]
    simpa [load_profile] using hempty
  have hdur' : sys.ph.duration = p.total_duration_ms := by rw [hph]; rfl
  have hstep' : sys.ph.time_step_ms = p.time_step_ms := by rw [hph]; rfl
  have hn : ∃ m, (sys.ph.duration + sys.ph.time_step_ms - 1) / sys.ph.time_step_ms
      = m + 1 := by
    have h1 : 1 ≤ (sys.ph.duration + sys.ph.time_step_ms - 1) / sys.ph.time_step_ms := by
      rw [Nat.one_le_div_iff (by omega)]
      omega
    exact ⟨(sys.ph.duration + sys.ph.time_step_ms - 1) / sys.ph.time_step_ms - 1,
      by omega⟩
  obtain ⟨m, hm⟩ := hn
  have hticks : tickTimes sys.ph.duration sys.ph.time_step_ms
      = 0 :: (List.range m).map (fun k => Nat.succ k * sys.ph.time_step_ms) := by
    rw [tickTimes, hm, List.range_succ_eq_map]
    simp [List.map_map, Function.comp]
  have hg : get_target_at_time sys.ph.profile_stages ((0 : ℕ) : ℤ)
      = Except.error () := by
    rw [hstages]
    rfl
  have hcycle : do_brew_cycle env sys 0 = Except.error sys := by
    simp only [do_brew_cycle, hg]
  rw [execute_brew, hticks, brewLoop, hcycle]

/-- Witness for C10 (amended) at the concrete malformed profile. -/
theorem load_profile_no_validation_witness :
    sysB.ph = load_profile badProfile ∧ badProfile.profile_points = [] ∧
    0 < badProfile.time_step_ms ∧ 0 < badProfile.total_duration_ms ∧
    (load_profile badProfile
       = { profile_name := badProfile.profile_name,
           time_step_ms := badProfile.time_step_ms,
           profile_stages := badProfile.profile_points,
           temperature := badProfile.target_temp_c,
           duration := badProfile.total_duration_ms } ∧
     execute_brew env1 sysB = Except.error sysB) :=
  ⟨rfl, rfl, by norm_num [badProfile], by norm_num [badProfile],
   load_profile_no_validation badProfile env1 sysB rfl rfl
     (by norm_num [badProfile]) (by norm_num [badProfile])⟩
